/-
Verification of the decision-tree core of the `dt` repository
(src/decision_tree.rs, src/reader.rs, src/main.rs).

Shallow embedding conventions:
* `DataRecord` mirrors `reader::DataRecord`: twelve optional string fields.
* Rust `HashMap`s materialise here as association lists in first-encounter
  order; key-based lookup is order-independent, and where the Rust result
  genuinely depends on hash-map iteration order (majority tie-breaking)
  the embedding exposes the order as an explicit argument (`pickMajority`).
* `f64` arithmetic is modelled over `ℝ` with `Real.logb 2` for `f64::log2`.
* `build_tree` recurses on subsets that are not structurally smaller and can
  in fact diverge, so it is embedded with an explicit fuel argument
  (`buildTree fuel records target : Option TreeNode`); `none` means the
  recursion exceeds every finite depth bound.
-/
import Mathlib

open Real List

/-- The five predictable target fields, mirroring `TargetField` in
src/decision_tree.rs. -/
inductive TargetField where
| Clinician : TargetField
| Gpt4_0 : TargetField
| Llama : TargetField
| Gemini : TargetField
| DdxSnomed : TargetField
deriving DecidableEq, Repr

/-- One CSV row, mirroring `reader::DataRecord`: all fields optional, `none`
is a missing value. Field order follows the Rust struct. -/
structure DataRecord where
mk ::
  master_index : Option String
  county : Option String
  health_level : Option String
  years_experience : Option String
  prompt : Option String
  nursing_competency : Option String
  clinical_panel : Option String
  clinician : Option String
  gpt4_0 : Option String
  llama : Option String
  gemini : Option String
  ddx_snomed : Option String
deriving DecidableEq, Repr

/-- Decision tree nodes, mirroring `TreeNode`: a branch stores the split
attribute and its children (a hash map in Rust, an association list here);
a leaf stores the predicted value. There is no majority field. -/
inductive TreeNode where
| branch : String → List (String × TreeNode) → TreeNode
| leaf : String → TreeNode

/-- `DecisionTree::get_target_value`: the accessor chosen by the target field. -/
def getTargetValue (record : DataRecord) (target : TargetField) : Option String :=
  match target with
  | .Clinician => record.clinician
  | .Gpt4_0 => record.gpt4_0
  | .Llama => record.llama
  | .Gemini => record.gemini
  | .DdxSnomed => record.ddx_snomed

/-- `DecisionTree::get_attribute_value`: attribute lookup by name; any name
outside the four known attributes yields `none`. -/
def getAttributeValue (record : DataRecord) (attr : String) : Option String :=
  if attr = "county" then record.county
  else if attr = "health_level" then record.health_level
  else if attr = "years_experience" then record.years_experience
  else if attr = "clinical_panel" then record.clinical_panel
  else none

/-- The fixed candidate-attribute list of `select_best_attribute`, in its
source order. -/
def attributeNames : List String :=
  ["county", "health_level", "years_experience", "clinical_panel"]

/-- Increment the count stored under key `v` in an association list, or
append `(v, 1)` when the key is new.  This is the `*counts.entry(v).or_insert(0) += 1`
idiom on a Rust `HashMap`, with first-encounter key order. -/
def bump : List (String × Nat) → String → List (String × Nat)
| [], v => [(v, 1)]
| (k, c) :: rest, v => if k = v then (k, c + 1) :: rest else (k, c) :: bump rest v

/-- Histogram of the values of `g` over a record list, skipping records where
`g` is `none`. Shared shape of every counting loop in src/decision_tree.rs. -/
def countsBy (g : DataRecord → Option String) (records : List DataRecord) :
    List (String × Nat) :=
  records.foldl (fun acc r => match g r with | some v => bump acc v | none => acc) []

/-- The class histogram built by `entropy` and `majority_value`: counts of each
non-missing target value. -/
def countsList (records : List DataRecord) (target : TargetField) :
    List (String × Nat) :=
  countsBy (fun r => getTargetValue r target) records

/-- The `value_counts` map of `gain_ratio`: per attribute value, the number of
records carrying both that attribute value and a non-missing target. -/
def valueCountsList (records : List DataRecord) (attr : String)
    (target : TargetField) : List (String × Nat) :=
  countsBy (fun r =>
    match getAttributeValue r attr, getTargetValue r target with
    | some av, some _ => some av
    | _, _ => none) records

/-- The inner class histogram `value_class_counts[v]` of `gain_ratio`: counts
of each target class among records whose attribute value is `v` (and whose
target is present). -/
def classCountsFor (records : List DataRecord) (attr : String)
    (target : TargetField) (v : String) : List (String × Nat) :=
  countsBy (fun r =>
    match getAttributeValue r attr, getTargetValue r target with
    | some av, some cv => if av = v then some cv else none
    | _, _ => none) records

/-- Total of the counts of a histogram. -/
def sumCounts (l : List (String × Nat)) : Nat :=
  (l.map Prod.snd).sum

/-- Append a record to the group stored under key `k`, or start a new group.
Models `groups.entry(key).or_insert_with(Vec::new).push(record)`. -/
def addToGroup : List (String × List DataRecord) → String → DataRecord →
    List (String × List DataRecord)
| [], k, r => [(k, [r])]
| (k', rs) :: rest, k, r =>
    if k' = k then (k', rs ++ [r]) :: rest else (k', rs) :: addToGroup rest k r

/-- `DecisionTree::group_by_attribute`: partition the records on an attribute,
dropping records whose attribute value is missing. Keys appear in
first-encounter order. -/
def groupByAttribute (records : List DataRecord) (attr : String) :
    List (String × List DataRecord) :=
  records.foldl (fun gs r =>
    match getAttributeValue r attr with
    | some v => addToGroup gs v r
    | none => gs) []

/-- `DecisionTree::all_same_value`: `some v` when the first record has target
value `v` and every record (including those with a missing target, which make
the check fail) has target value exactly `v`. -/
def allSameValue (records : List DataRecord) (target : TargetField) :
    Option String :=
  match records with
  | [] => none
  | first :: _ =>
    match getTargetValue first target with
    | none => none
    | some fv =>
      if records.all (fun r => getTargetValue r target = some fv) then some fv
      else none

/-- `Iterator::max_by_key` on `(value, count)` pairs: the maximum by count,
returning the later element on ties, as the Rust iterator adapter does. -/
def maxByCountLast : List (String × Nat) → Option (String × Nat)
| [] => none
| p :: rest =>
    match maxByCountLast rest with
    | none => some p
    | some q => if p.2 > q.2 then some p else some q

/-- The selection step of `majority_value`, applied to the histogram in a given
iteration order: the value with the greatest count (later entry wins ties),
or "Unknown" for an empty histogram. Rust iterates the histogram in hash-map
order, so ties depend on that order; the embedding takes the order as the
argument list itself. -/
def pickMajority (l : List (String × Nat)) : String :=
  match maxByCountLast l with
  | some p => p.1
  | none => "Unknown"

/-- `DecisionTree::majority_value` with the histogram in first-encounter
order. -/
def majorityValue (records : List DataRecord) (target : TargetField) : String :=
  pickMajority (countsList records target)

/-- One summand of the base-2 entropy folds: `acc - p * p.log2()` adds
`ent2 p`. -/
noncomputable def ent2 (p : ℝ) : ℝ := -(p * Real.logb 2 p)

/-- `DecisionTree::entropy`: class histogram over non-missing target values,
probabilities divided by the full record count (missing-target records still
inflate the denominator), summed as `Σ -p·log2 p`. -/
noncomputable def entropy (records : List DataRecord) (target : TargetField) : ℝ :=
  ((countsList records target).map
    (fun q => ent2 ((q.2 : ℝ) / (records.length : ℝ)))).sum

/-- The `split_info` accumulator of `gain_ratio`: intrinsic information of the
attribute-value distribution, with probabilities again divided by the full
record count. -/
noncomputable def splitInfo (records : List DataRecord) (attr : String)
    (target : TargetField) : ℝ :=
  ((valueCountsList records attr target).map
    (fun q => ent2 ((q.2 : ℝ) / (records.length : ℝ)))).sum

/-- The `info_attr` accumulator of `gain_ratio`: expected class entropy after
the split, the inner entropy of each value partition weighted by that
partition's probability. -/
noncomputable def infoAttr (records : List DataRecord) (attr : String)
    (target : TargetField) : ℝ :=
  ((valueCountsList records attr target).map
    (fun q => ((q.2 : ℝ) / (records.length : ℝ)) *
      ((classCountsFor records attr target q.1).map
        (fun c => ent2 ((c.2 : ℝ) / (q.2 : ℝ)))).sum)).sum

/-- `DecisionTree::gain_ratio`: `(class_entropy - info_attr) / split_info`,
with the division guarded to `0` when `split_info == 0`. -/
noncomputable def gainRatio (records : List DataRecord) (attr : String)
    (target : TargetField) (classEntropy : ℝ) : ℝ :=
  if splitInfo records attr target = 0 then 0
  else (classEntropy - infoAttr records attr target) / splitInfo records attr target

/-- `DecisionTree::select_best_attribute`: fold over the fixed attribute list,
keeping the first attribute whose gain ratio strictly exceeds the running best
(initially `0`), so an attribute is selected only with a strictly positive
gain ratio and gain-ratio ties keep the earlier attribute. -/
noncomputable def selectBestAttribute (records : List DataRecord)
    (target : TargetField) : Option String :=
  (attributeNames.foldl
    (fun acc attr =>
      if gainRatio records attr target (entropy records target) > acc.2
      then (some attr, gainRatio records attr target (entropy records target))
      else acc)
    ((none : Option String), (0 : ℝ))).1

/-- The children-building loop of `build_tree`: each group's subset becomes a
child, an empty subset (unreachable in practice) falling back to a leaf with
the parent majority, a non-empty subset built by the supplied recursive call
(`none` propagates fuel exhaustion). -/
def buildChildren (build : List DataRecord → Option TreeNode) (parentMaj : String) :
    List (String × List DataRecord) → Option (List (String × TreeNode))
| [] => some []
| (v, subset) :: rest =>
    match (if subset.isEmpty then some (TreeNode.leaf parentMaj) else build subset),
          buildChildren build parentMaj rest with
    | some child, some others => some ((v, child) :: others)
    | _, _ => none

/-- `DecisionTree::build_tree`, with fuel bounding the recursion depth: empty
records give `Leaf "Unknown"`, a successful purity check gives a leaf with
that value, a selected attribute gives a branch over the grouped subsets, and
no selectable attribute gives a majority leaf. `none` means the recursion
does not finish within the given depth (the Rust original simply recurses). -/
noncomputable def buildTree : Nat → List DataRecord → TargetField → Option TreeNode
| 0, _, _ => none
| fuel + 1, records, target =>
  if records.isEmpty then some (TreeNode.leaf "Unknown")
  else
    match allSameValue records target with
    | some v => some (TreeNode.leaf v)
    | none =>
      match selectBestAttribute records target with
      | some bestAttr =>
          (buildChildren (fun subset => buildTree fuel subset target)
            (majorityValue records target)
            (groupByAttribute records bestAttr)).map
          (fun children => TreeNode.branch bestAttr children)
      | none => some (TreeNode.leaf (majorityValue records target))

/-- A single-target tree, mirroring the `DecisionTree` struct. -/
structure DecisionTree where
mk ::
  root : TreeNode
  target : TargetField

mutual

/-- `DecisionTree::predict_recursive`: a leaf yields its value; a branch reads
the record's value for the branch attribute (`none` when missing), looks the
value up among the children by exact string equality (`none` when unmatched),
and recurses into the matched child. -/
def predictRec : TreeNode → DataRecord → Option String
| TreeNode.leaf v, _ => some v
| TreeNode.branch attr children, record =>
    match getAttributeValue record attr with
    | none => none
    | some v => predictRecChildren children v record

/-- The child-lookup scan of `predict_recursive`. -/
def predictRecChildren : List (String × TreeNode) → String → DataRecord → Option String
| [], _, _ => none
| (k, child) :: rest, v, record =>
    if k = v then predictRec child record else predictRecChildren rest v record

end

/-- `DecisionTree::predict`: traversal from the root. -/
def DecisionTree.predict (t : DecisionTree) (record : DataRecord) : Option String :=
  predictRec t.root record

/-- Modelled from the spec: `TreeParams` is imported and constructed by
src/main.rs (`decision_tree::TreeParams`, fields `max_depth`,
`min_samples_leaf`, `min_gain_ratio`) but its definition is absent from the
included decision_tree.rs; fields as in spec section 3. -/
structure TreeParams where
mk ::
  max_depth : Nat
  min_samples_leaf : Nat
  min_gain_ratio : ℝ

/-- Modelled from the spec: tree nodes of the pruned builder of spec section 3,
where a branch additionally stores the majority class of the record set that
produced it. -/
inductive SpecTreeNode where
| branch : String → List (String × SpecTreeNode) → String → SpecTreeNode
| leaf : String → SpecTreeNode

/-- Modelled from the spec: the majority of spec section 4.2 step 1 — most
frequent non-missing target value, count ties broken by lexicographic order of
the value, "unknown" for an empty histogram. -/
def specMajority (records : List DataRecord) (target : TargetField) : String :=
  match (countsList records target).foldl
    (fun acc p =>
      match acc with
      | none => some p
      | some q =>
        if p.2 > q.2 ∨ (p.2 = q.2 ∧ p.1 < q.1) then some p else some q) none with
  | some q => q.1
  | none => "unknown"

/-- Modelled from the spec: the purity check of spec section 4.2 step 4 —
`some v` when every non-missing target value equals `v` (records with a
missing target are ignored), `none` when the non-missing values disagree or
none exist. -/
def specAllSame (records : List DataRecord) (target : TargetField) : Option String :=
  match records.filterMap (fun r => getTargetValue r target) with
  | [] => none
  | v :: rest => if rest.all (fun w => w = v) then some v else none

/-- Modelled from the spec: attribute selection of spec section 4.2 step 6 over
the remaining attributes — the strictly greatest gain ratio wins, ties keep
the earlier attribute of the list. Returns the attribute and its ratio. -/
noncomputable def specSelectBest (records : List DataRecord) (target : TargetField)
    (attrs : List String) : Option (String × ℝ) :=
  attrs.foldl
    (fun acc attr =>
      let r := gainRatio records attr target (entropy records target)
      match acc with
      | none => some (attr, r)
      | some q => if r > q.2 then some (attr, r) else acc) none

/-- Modelled from the spec: the pruned recursive builder of spec section 4.2
(`build_with_params` is invoked from src/main.rs but missing from the included
decision_tree.rs). Steps in order: empty set, depth/size pruning, purity,
attribute exhaustion, minimum-gain-ratio cut, then a branch whose small
partitions become parent-majority leaves and whose other partitions recurse
with depth+1 and the chosen attribute removed. -/
noncomputable def specBuildTree (records : List DataRecord) (target : TargetField)
    (attrs : List String) (depth : Nat) (params : TreeParams) : SpecTreeNode :=
  let maj := specMajority records target
  if records = [] then SpecTreeNode.leaf "unknown"
  else if h : params.max_depth ≤ depth ∨ records.length < params.min_samples_leaf then
    SpecTreeNode.leaf maj
  else
    match specAllSame records target with
    | some v => SpecTreeNode.leaf v
    | none =>
      if attrs = [] then SpecTreeNode.leaf maj
      else
        match specSelectBest records target attrs with
        | none => SpecTreeNode.leaf maj
        | some best =>
          if best.2 < params.min_gain_ratio then SpecTreeNode.leaf maj
          else
            SpecTreeNode.branch best.1
              ((groupByAttribute records best.1).map (fun p =>
                if p.2.length < params.min_samples_leaf then
                  (p.1, SpecTreeNode.leaf maj)
                else
                  (p.1, specBuildTree p.2 target (attrs.erase best.1) (depth + 1) params)))
              maj
termination_by params.max_depth - depth
decreasing_by
  simp only [not_or, Nat.not_le] at h
  omega

/-- Record with county "x" and clinician "A", all other fields missing. -/
def rXA : DataRecord :=
  ⟨none, some "x", none, none, none, none, none, some "A", none, none, none, none⟩

/-- Record with county "x" only; its clinician target is missing. -/
def rXn : DataRecord :=
  ⟨none, some "x", none, none, none, none, none, none, none, none, none, none⟩

/-- Record with county "y" only; its clinician target is missing. -/
def rYn : DataRecord :=
  ⟨none, some "y", none, none, none, none, none, none, none, none, none, none⟩

/-- Record with clinician "B", everything else missing. -/
def rB : DataRecord :=
  ⟨none, none, none, none, none, none, none, some "B", none, none, none, none⟩

/-- Record with every field missing. -/
def rNone : DataRecord :=
  ⟨none, none, none, none, none, none, none, none, none, none, none, none⟩

/-- Record with county "A" only (canonical-case probe for the child key "A"). -/
def rCountyUpper : DataRecord :=
  ⟨none, some "A", none, none, none, none, none, none, none, none, none, none⟩

/-- Record with county "a" only (lower-case probe for the child key "A"). -/
def rCountyLower : DataRecord :=
  ⟨none, some "a", none, none, none, none, none, none, none, none, none, none⟩

/-- Two records sharing county "x", the second with a missing clinician
target: `build_tree` groups them into a single subset equal to the whole set
and recurses on it forever. -/
def loopRecs : List DataRecord := [rXA, rXn]

/-- Two records with distinct county values, the second with a missing
clinician target: builds a branch on "county". -/
def branchRecs : List DataRecord := [rXA, rYn]

/-- A hand-built branch with the single child key "A". -/
def caseTree : TreeNode := TreeNode.branch "county" [("A", TreeNode.leaf "X")]

theorem ent2_one : ent2 1 = 0 := by simp [ent2]

theorem ent2_half : ent2 ((2 : ℝ)⁻¹) = 2⁻¹ := by
  have hl : Real.logb 2 ((2 : ℝ)⁻¹) = -1 := by
    rw [Real.logb_inv, Real.logb_self_eq_one]
    norm_num
  rw [ent2, hl]
  ring

theorem counts_loop : countsList loopRecs TargetField.Clinician = [("A", 1)] := by decide

theorem len_loop : loopRecs.length = 2 := by decide

theorem entropy_loop : entropy loopRecs TargetField.Clinician = 2⁻¹ := by
  rw [entropy, counts_loop, len_loop]
  simp [ent2_half]

theorem vc_loop_county :
    valueCountsList loopRecs "county" TargetField.Clinician = [("x", 1)] := by decide

theorem cc_loop_x :
    classCountsFor loopRecs "county" TargetField.Clinician "x" = [("A", 1)] := by decide

theorem splitInfo_loop_county : splitInfo loopRecs "county" TargetField.Clinician = 2⁻¹ := by
  rw [splitInfo, vc_loop_county, len_loop]
  simp [ent2_half]

theorem infoAttr_loop_county : infoAttr loopRecs "county" TargetField.Clinician = 0 := by
  rw [infoAttr, vc_loop_county, len_loop]
  simp [cc_loop_x, ent2_one]

theorem gr_loop_county :
    gainRatio loopRecs "county" TargetField.Clinician
      (entropy loopRecs TargetField.Clinician) = 1 := by
  rw [gainRatio, entropy_loop, infoAttr_loop_county]
  rw [if_neg (by rw [splitInfo_loop_county]; norm_num)]
  rw [splitInfo_loop_county]
  norm_num

theorem gainRatio_of_vc_nil {records : List DataRecord} {attr : String}
    {target : TargetField} (h : valueCountsList records attr target = [])
    (e : ℝ) : gainRatio records attr target e = 0 := by
  rw [gainRatio, if_pos]
  rw [splitInfo, h]
  simp

theorem selectBest_loop :
    selectBestAttribute loopRecs TargetField.Clinician = some "county" := by
  have h2 : valueCountsList loopRecs "health_level" TargetField.Clinician = [] := by decide
  have h3 : valueCountsList loopRecs "years_experience" TargetField.Clinician = [] := by decide
  have h4 : valueCountsList loopRecs "clinical_panel" TargetField.Clinician = [] := by decide
  rw [selectBestAttribute, attributeNames]
  simp only [List.foldl]
  rw [gr_loop_county, gainRatio_of_vc_nil h2, gainRatio_of_vc_nil h3, gainRatio_of_vc_nil h4]
  norm_num

theorem counts_branch : countsList branchRecs TargetField.Clinician = [("A", 1)] := by decide

theorem len_branch : branchRecs.length = 2 := by decide

theorem entropy_branch : entropy branchRecs TargetField.Clinician = 2⁻¹ := by
  rw [entropy, counts_branch, len_branch]
  simp [ent2_half]

theorem vc_branch_county :
    valueCountsList branchRecs "county" TargetField.Clinician = [("x", 1)] := by decide

theorem cc_branch_x :
    classCountsFor branchRecs "county" TargetField.Clinician "x" = [("A", 1)] := by decide

theorem splitInfo_branch_county :
    splitInfo branchRecs "county" TargetField.Clinician = 2⁻¹ := by
  rw [splitInfo, vc_branch_county, len_branch]
  simp [ent2_half]

theorem infoAttr_branch_county : infoAttr branchRecs "county" TargetField.Clinician = 0 := by
  rw [infoAttr, vc_branch_county, len_branch]
  simp [cc_branch_x, ent2_one]

theorem gr_branch_county :
    gainRatio branchRecs "county" TargetField.Clinician
      (entropy branchRecs TargetField.Clinician) = 1 := by
  rw [gainRatio, entropy_branch, infoAttr_branch_county]
  rw [if_neg (by rw [splitInfo_branch_county]; norm_num)]
  rw [splitInfo_branch_county]
  norm_num

theorem selectBest_branch :
    selectBestAttribute branchRecs TargetField.Clinician = some "county" := by
  have h2 : valueCountsList branchRecs "health_level" TargetField.Clinician = [] := by decide
  have h3 : valueCountsList branchRecs "years_experience" TargetField.Clinician = [] := by decide
  have h4 : valueCountsList branchRecs "clinical_panel" TargetField.Clinician = [] := by decide
  rw [selectBestAttribute, attributeNames]
  simp only [List.foldl]
  rw [gr_branch_county, gainRatio_of_vc_nil h2, gainRatio_of_vc_nil h3, gainRatio_of_vc_nil h4]
  norm_num

theorem selectBest_rYn : selectBestAttribute [rYn] TargetField.Clinician = none := by
  have h1 : valueCountsList [rYn] "county" TargetField.Clinician = [] := by decide
  have h2 : valueCountsList [rYn] "health_level" TargetField.Clinician = [] := by decide
  have h3 : valueCountsList [rYn] "years_experience" TargetField.Clinician = [] := by decide
  have h4 : valueCountsList [rYn] "clinical_panel" TargetField.Clinician = [] := by decide
  rw [selectBestAttribute, attributeNames]
  simp only [List.foldl]
  rw [gainRatio_of_vc_nil h1, gainRatio_of_vc_nil h2, gainRatio_of_vc_nil h3,
    gainRatio_of_vc_nil h4]
  norm_num

theorem buildTree_succ (n : Nat) (records : List DataRecord) (target : TargetField) :
    buildTree (n + 1) records target =
      (if records.isEmpty then some (TreeNode.leaf "Unknown")
       else
         match allSameValue records target with
         | some v => some (TreeNode.leaf v)
         | none =>
           match selectBestAttribute records target with
           | some bestAttr =>
               (buildChildren (fun subset => buildTree n subset target)
                 (majorityValue records target)
                 (groupByAttribute records bestAttr)).map
               (fun children => TreeNode.branch bestAttr children)
           | none => some (TreeNode.leaf (majorityValue records target))) := rfl

theorem buildTree_rXA (n : Nat) :
    buildTree (n + 1) [rXA] TargetField.Clinician = some (TreeNode.leaf "A") := by
  have h : allSameValue [rXA] TargetField.Clinician = some "A" := by decide
  rw [buildTree_succ]
  simp [h]

theorem buildTree_rYn (n : Nat) :
    buildTree (n + 1) [rYn] TargetField.Clinician = some (TreeNode.leaf "Unknown") := by
  have h1 : allSameValue [rYn] TargetField.Clinician = none := by decide
  have h3 : majorityValue [rYn] TargetField.Clinician = "Unknown" := by decide
  rw [buildTree_succ]
  simp [h1, selectBest_rYn, h3]

theorem buildTree_branchRecs (n : Nat) :
    buildTree (n + 2) branchRecs TargetField.Clinician =
      some (TreeNode.branch "county"
        [("x", TreeNode.leaf "A"), ("y", TreeNode.leaf "Unknown")]) := by
  have h0 : List.isEmpty branchRecs = false := by decide
  have h1 : allSameValue branchRecs TargetField.Clinician = none := by decide
  have hg : groupByAttribute branchRecs "county" = [("x", [rXA]), ("y", [rYn])] := by decide
  rw [show n + 2 = (n + 1) + 1 from rfl, buildTree_succ]
  simp [h0, h1, selectBest_branch, hg, buildChildren, buildTree_rXA, buildTree_rYn]

/-- C1: the claim states that `DecisionTree::build` (via `build_tree`)
terminates for every finite record set because each recursive call removes the
chosen attribute.  The code removes no attribute, and on the concrete two
record set `loopRecs` (both records carry county "x", the second has no
clinician target) `build_tree` selects "county", groups both records into one
subset equal to the whole set, and recurses on it unchanged: in the fuel
embedding no amount of fuel completes the recursion, i.e. the Rust code loops
forever. -/
theorem C1_build_tree_nonterminating :
    ∀ n, buildTree n loopRecs TargetField.Clinician = none := by
  intro n
  induction n with
  | zero => rfl
  | succ n ih =>
    have h0 : List.isEmpty loopRecs = false := by decide
    have h1 : allSameValue loopRecs TargetField.Clinician = none := by decide
    have hg : groupByAttribute loopRecs "county" = [("x", loopRecs)] := by decide
    have ih2 : buildTree n [rXA, rXn] TargetField.Clinician = none := ih
    rw [buildTree_succ]
    simp [h0, h1, selectBest_loop, hg, buildChildren, ih, ih2]

theorem sumCounts_bump (l : List (String × Nat)) (v : String) :
    sumCounts (bump l v) = sumCounts l + 1 := by
  induction l with
  | nil => rfl
  | cons p rest ih =>
    obtain ⟨k, c⟩ := p
    by_cases h : k = v
    · simp [bump, h, sumCounts]
      omega
    · simp [bump, h, sumCounts] at ih ⊢
      omega

theorem countsBy_sum (g : DataRecord → Option String) :
    ∀ (rs : List DataRecord) (acc : List (String × Nat)),
      sumCounts (rs.foldl
        (fun acc r => match g r with | some v => bump acc v | none => acc) acc) ≤
        sumCounts acc + rs.length := by
  intro rs
  induction rs with
  | nil => simp
  | cons r rest ih =>
    intro acc
    simp only [List.foldl_cons, List.length_cons]
    cases hg : g r with
    | none =>
      calc sumCounts _ ≤ sumCounts acc + rest.length := by simpa [hg] using ih acc
        _ ≤ sumCounts acc + (rest.length + 1) := by omega
    | some v =>
      calc sumCounts _ ≤ sumCounts (bump acc v) + rest.length := by simpa [hg] using ih _
        _ = sumCounts acc + (rest.length + 1) := by rw [sumCounts_bump]; omega

theorem countsBy_sum_eq (g : DataRecord → Option String) :
    ∀ (rs : List DataRecord) (acc : List (String × Nat)),
      (∀ r ∈ rs, (g r).isSome) →
      sumCounts (rs.foldl
        (fun acc r => match g r with | some v => bump acc v | none => acc) acc) =
        sumCounts acc + rs.length := by
  intro rs
  induction rs with
  | nil => simp
  | cons r rest ih =>
    intro acc hall
    have hr : (g r).isSome := hall r (by simp)
    obtain ⟨v, hv⟩ := Option.isSome_iff_exists.mp hr
    simp only [List.foldl_cons, hv, List.length_cons]
    rw [ih _ (fun x hx => hall x (by simp [hx])), sumCounts_bump]
    omega

theorem mem_le_sumCounts : ∀ (l : List (String × Nat)), ∀ p ∈ l, p.2 ≤ sumCounts l := by
  intro l
  induction l with
  | nil => simp
  | cons q rest ih =>
    intro p hp
    rcases List.mem_cons.mp hp with h | h
    · subst h
      simp [sumCounts]
    · have := ih p h
      simp [sumCounts] at this ⊢
      omega

theorem sumCounts_countsList_le (records : List DataRecord) (target : TargetField) :
    sumCounts (countsList records target) ≤ records.length := by
  simpa [sumCounts] using countsBy_sum (fun r => getTargetValue r target) records []

theorem sumCounts_countsList_eq (records : List DataRecord) (target : TargetField)
    (h : ∀ r ∈ records, (getTargetValue r target).isSome) :
    sumCounts (countsList records target) = records.length := by
  simpa [sumCounts] using
    countsBy_sum_eq (fun r => getTargetValue r target) records [] h

theorem sumCounts_valueCountsList_le (records : List DataRecord) (attr : String)
    (target : TargetField) :
    sumCounts (valueCountsList records attr target) ≤ records.length := by
  simpa [sumCounts] using countsBy_sum
    (fun r =>
      match getAttributeValue r attr, getTargetValue r target with
      | some av, some _ => some av
      | _, _ => none) records []

theorem addToGroup_ne_nil (gs : List (String × List DataRecord)) (k : String)
    (r : DataRecord) (h : ∀ p ∈ gs, p.2 ≠ []) :
    ∀ p ∈ addToGroup gs k r, p.2 ≠ [] := by
  induction gs with
  | nil =>
    intro p hp
    simp [addToGroup] at hp
    subst hp
    simp
  | cons q rest ih =>
    obtain ⟨k', rs⟩ := q
    intro p hp
    by_cases hk : k' = k
    · simp [addToGroup, hk] at hp
      rcases hp with h1 | h1
      · subst h1; simp
      · exact h p (by simp [h1])
    · simp only [addToGroup, if_neg hk] at hp
      rcases List.mem_cons.mp hp with h1 | h1
      · subst h1
        exact h (k', rs) (by simp)
      · exact ih (fun p hp => h p (by simp [hp])) p h1

theorem groupByAttribute_ne_nil (records : List DataRecord) (attr : String) :
    ∀ p ∈ groupByAttribute records attr, p.2 ≠ [] := by
  have main : ∀ (rs : List DataRecord) (gs : List (String × List DataRecord)),
      (∀ p ∈ gs, p.2 ≠ []) →
      ∀ p ∈ rs.foldl (fun gs r =>
        match getAttributeValue r attr with
        | some v => addToGroup gs v r
        | none => gs) gs, p.2 ≠ [] := by
    intro rs
    induction rs with
    | nil => intro gs h; simpa using h
    | cons r rest ih =>
      intro gs h
      simp only [List.foldl_cons]
      cases hg : getAttributeValue r attr with
      | none => simpa [hg] using ih gs h
      | some v => simpa [hg] using ih _ (addToGroup_ne_nil gs v r h)
  exact main records [] (by simp)

theorem maxByCountLast_mem : ∀ (l : List (String × Nat)) (p : String × Nat),
    maxByCountLast l = some p → p ∈ l := by
  intro l
  induction l with
  | nil => simp [maxByCountLast]
  | cons q rest ih =>
    intro p hp
    rw [maxByCountLast] at hp
    cases hm : maxByCountLast rest with
    | none =>
      rw [hm] at hp
      simp at hp
      simp [hp]
    | some m =>
      rw [hm] at hp
      by_cases hgt : q.2 > m.2
      · simp [hgt] at hp
        simp [hp]
      · simp [hgt] at hp
        exact List.mem_cons_of_mem _ (ih p (by rw [hm, hp]))

theorem maxByCountLast_cons_isSome (q : String × Nat) (rest : List (String × Nat)) :
    ∃ p, maxByCountLast (q :: rest) = some p := by
  rw [maxByCountLast]
  cases maxByCountLast rest with
  | none => exact ⟨q, rfl⟩
  | some m =>
    by_cases h : q.2 > m.2
    · exact ⟨q, by simp [h]⟩
    · exact ⟨m, by simp [h]⟩

theorem maxByCountLast_ge : ∀ (l : List (String × Nat)) (p : String × Nat),
    maxByCountLast l = some p → ∀ q ∈ l, q.2 ≤ p.2 := by
  intro l
  induction l with
  | nil => simp [maxByCountLast]
  | cons a rest ih =>
    intro p hp q hq
    cases rest with
    | nil =>
      simp [maxByCountLast] at hp
      simp at hq
      subst hp
      subst hq
      omega
    | cons b tl =>
      obtain ⟨m, hm⟩ := maxByCountLast_cons_isSome b tl
      rw [maxByCountLast, hm] at hp
      have hrest := ih m hm
      rcases List.mem_cons.mp hq with h1 | h1
      · subst h1
        by_cases hgt : q.2 > m.2
        · simp [hgt] at hp; subst hp; omega
        · simp [hgt] at hp; subst hp; omega
      · have hqm := hrest q h1
        by_cases hgt : a.2 > m.2
        · simp [hgt] at hp; subst hp; omega
        · simp [hgt] at hp; subst hp; omega

theorem pickMajority_of_strict_max (l : List (String × Nat)) (v : String) (c : Nat)
    (hmem : (v, c) ∈ l) (hmax : ∀ p ∈ l, p.1 ≠ v → p.2 < c) :
    pickMajority l = v := by
  cases l with
  | nil => simp at hmem
  | cons q rest =>
    obtain ⟨m, hm⟩ := maxByCountLast_cons_isSome q rest
    have hmmem : m ∈ q :: rest := maxByCountLast_mem _ m hm
    have hge : ∀ p ∈ q :: rest, p.2 ≤ m.2 := maxByCountLast_ge _ m hm
    have hcm : c ≤ m.2 := hge (v, c) hmem
    have : m.1 = v := by
      by_contra hne
      have := hmax m hmmem hne
      omega
    simp [pickMajority, hm, this]

theorem foldl_best_spec (f : String → ℝ) :
    ∀ (l : List String) (b : Option String) (r : ℝ),
      (l.foldl (fun acc a => if f a > acc.2 then (some a, f a) else acc) (b, r) = (b, r) ∧
        ∀ a ∈ l, f a ≤ r) ∨
      (∃ l₁ a l₂, l = l₁ ++ a :: l₂ ∧
        l.foldl (fun acc a => if f a > acc.2 then (some a, f a) else acc) (b, r) =
          (some a, f a) ∧
        r < f a ∧ (∀ x ∈ l₁, f x < f a) ∧ (∀ x ∈ l₂, f x ≤ f a)) := by
  intro l
  induction l with
  | nil =>
    intro b r
    left
    simp
  | cons hd tl ih =>
    intro b r
    simp only [List.foldl_cons]
    by_cases h : f hd > r
    · rw [if_pos h]
      rcases ih (some hd) (f hd) with ⟨heq, hall⟩ | ⟨l₁, a, l₂, hsplit, heq, hlt, hpre, hpost⟩
      · right
        exact ⟨[], hd, tl, by simp, by rw [heq], h, by simp, hall⟩
      · right
        refine ⟨hd :: l₁, a, l₂, by simp [hsplit], heq, lt_trans h hlt, ?_, hpost⟩
        intro x hx
        rcases List.mem_cons.mp hx with h1 | h1
        · subst h1
          exact hlt
        · exact hpre x h1
    · rw [if_neg h]
      rcases ih b r with ⟨heq, hall⟩ | ⟨l₁, a, l₂, hsplit, heq, hlt, hpre, hpost⟩
      · left
        refine ⟨heq, ?_⟩
        intro x hx
        rcases List.mem_cons.mp hx with h1 | h1
        · subst h1
          exact le_of_not_lt h
        · exact hall x h1
      · right
        refine ⟨hd :: l₁, a, l₂, by simp [hsplit], heq, hlt, ?_, hpost⟩
        intro x hx
        rcases List.mem_cons.mp hx with h1 | h1
        · subst h1
          exact lt_of_le_of_lt (le_of_not_lt h) hlt
        · exact hpre x h1

theorem selectBest_spec (records : List DataRecord) (target : TargetField) (a : String)
    (h : selectBestAttribute records target = some a) :
    ∃ l₁ l₂, attributeNames = l₁ ++ a :: l₂ ∧
      0 < gainRatio records a target (entropy records target) ∧
      (∀ b ∈ l₁, gainRatio records b target (entropy records target) <
        gainRatio records a target (entropy records target)) ∧
      (∀ b ∈ l₂, gainRatio records b target (entropy records target) ≤
        gainRatio records a target (entropy records target)) := by
  rw [selectBestAttribute] at h
  rcases foldl_best_spec (fun attr => gainRatio records attr target (entropy records target))
      attributeNames none 0 with ⟨heq, _⟩ | ⟨l₁, x, l₂, hsplit, heq, hlt, hpre, hpost⟩
  · rw [heq] at h
    simp at h
  · rw [heq] at h
    simp at h
    subst h
    exact ⟨l₁, l₂, hsplit, hlt, hpre, hpost⟩

theorem ent2_eq_negMulLog (p : ℝ) : ent2 p = Real.negMulLog p / Real.log 2 := by
  rw [ent2, Real.negMulLog, Real.logb]
  ring

theorem list_map_sum_fin {α : Type} (l : List α) (f : α → ℝ) :
    (l.map f).sum = ∑ i : Fin l.length, f (l.get i) := by
  induction l with
  | nil => simp
  | cons hd tl ih =>
    rw [List.map_cons, List.sum_cons, ih]
    simp [Fin.sum_univ_succ]

theorem list_sum_map_div {α : Type} (l : List α) (f : α → ℝ) (c : ℝ) :
    (l.map fun x => f x / c).sum = (l.map f).sum / c := by
  induction l with
  | nil => simp
  | cons hd tl ih =>
    simp only [List.map_cons, List.sum_cons, ih]
    rw [add_div]

theorem sum_ent2_le_logb (ps : List ℝ) (h0 : ∀ p ∈ ps, 0 ≤ p) (h1 : ps.sum = 1)
    (hne : ps ≠ []) : (ps.map ent2).sum ≤ Real.logb 2 (ps.length : ℝ) := by
  have hk : 0 < ps.length := List.length_pos.mpr hne
  have hkR : (0 : ℝ) < (ps.length : ℝ) := by exact_mod_cast hk
  have hkne : ((ps.length : ℝ)) ≠ 0 := ne_of_gt hkR
  have hget : ∀ i : Fin ps.length, ps.get i ∈ ps := fun i => List.get_mem ps i.1 i.2
  have jensen := Real.concaveOn_negMulLog.le_map_sum
    (t := (Finset.univ : Finset (Fin ps.length)))
    (w := fun _ => ((ps.length : ℝ))⁻¹) (p := fun i => ps.get i)
    (fun i _ => by positivity)
    (by
      rw [Finset.sum_const, Finset.card_univ, Fintype.card_fin, nsmul_eq_mul]
      field_simp)
    (fun i _ => Set.mem_Ici.mpr (h0 _ (hget i)))
  have hsum_get : ∑ i : Fin ps.length, ps.get i = 1 := by
    have := list_map_sum_fin ps (fun x => x)
    rw [List.map_id'] at this
    rw [← this, h1]
  simp only [smul_eq_mul] at jensen
  rw [← Finset.mul_sum, ← Finset.mul_sum, hsum_get, mul_one] at jensen
  have hnml : Real.negMulLog ((ps.length : ℝ))⁻¹ =
      ((ps.length : ℝ))⁻¹ * Real.log (ps.length : ℝ) := by
    rw [Real.negMulLog, Real.log_inv]
    ring
  rw [hnml] at jensen
  have jensen2 : ((ps.length : ℝ))⁻¹ * (ps.map Real.negMulLog).sum ≤
      ((ps.length : ℝ))⁻¹ * Real.log (ps.length : ℝ) := by
    rw [list_map_sum_fin ps Real.negMulLog]
    exact jensen
  have hS : (ps.map Real.negMulLog).sum ≤ Real.log (ps.length : ℝ) :=
    le_of_mul_le_mul_left jensen2 (inv_pos.mpr hkR)
  have hlog2 : (0 : ℝ) < Real.log 2 := Real.log_pos (by norm_num)
  have hmap : (ps.map ent2) = ps.map fun p => Real.negMulLog p / Real.log 2 := by
    apply List.map_congr_left
    intro x _
    exact ent2_eq_negMulLog x
  rw [hmap, list_sum_map_div, Real.logb, div_le_div_iff_of_pos_right]
  · exact hS
  · exact hlog2

theorem entropy_of_counts_nil (records : List DataRecord) (target : TargetField)
    (hc : countsList records target = []) : entropy records target = 0 := by
  simp [entropy, hc]

theorem countsList_nil (target : TargetField) : countsList [] target = [] := rfl

theorem entropy_single (records : List DataRecord) (target : TargetField)
    (h : ∀ r ∈ records, (getTargetValue r target).isSome)
    (h1 : (countsList records target).length = 1) : entropy records target = 0 := by
  obtain ⟨q, hq⟩ := List.length_eq_one.mp h1
  have hsum : sumCounts (countsList records target) = records.length :=
    sumCounts_countsList_eq _ _ h
  rw [hq] at hsum
  simp [sumCounts] at hsum
  have hne : records ≠ [] := by
    intro habs
    rw [habs, countsList_nil] at hq
    exact List.cons_ne_nil q [] hq.symm
  have hlen : (0 : ℝ) < (records.length : ℝ) := by
    have := List.length_pos.mpr hne
    exact_mod_cast this
  rw [entropy, hq]
  simp only [List.map_cons, List.map_nil, List.sum_cons, List.sum_nil, add_zero]
  rw [hsum, div_self (ne_of_gt hlen), ent2_one]

theorem entropy_le_logb (records : List DataRecord) (target : TargetField)
    (h : ∀ r ∈ records, (getTargetValue r target).isSome) :
    entropy records target ≤ Real.logb 2 ((countsList records target).length : ℝ) := by
  by_cases hc : countsList records target = []
  · rw [entropy_of_counts_nil _ _ hc, hc]
    simp
  · have hne : records ≠ [] := by
      intro habs
      rw [habs, countsList_nil] at hc
      exact hc rfl
    have hlenpos : (0 : ℝ) < (records.length : ℝ) := by
      have := List.length_pos.mpr hne
      exact_mod_cast this
    set cl := countsList records target with hcl
    set ps : List ℝ := cl.map (fun q => (q.2 : ℝ) / (records.length : ℝ)) with hps
    have hent : entropy records target = (ps.map ent2).sum := by
      rw [entropy, hps, List.map_map]
      rfl
    have h0 : ∀ p ∈ ps, 0 ≤ p := by
      intro p hp
      rw [hps] at hp
      obtain ⟨q, _, rfl⟩ := List.mem_map.mp hp
      positivity
    have h1 : ps.sum = 1 := by
      rw [hps]
      rw [list_sum_map_div cl (fun q => ((q.2 : ℕ) : ℝ)) (records.length : ℝ)]
      have hcast : (cl.map fun q => ((q.2 : ℕ) : ℝ)).sum = ((sumCounts cl : ℕ) : ℝ) := by
        rw [sumCounts, Nat.cast_list_sum, List.map_map]
        rfl
      rw [hcast, sumCounts_countsList_eq _ _ h, div_self (ne_of_gt hlenpos)]
    have hpsne : ps ≠ [] := by
      rw [hps]
      simpa using hc
    have := sum_ent2_le_logb ps h0 h1 hpsne
    rw [hent]
    have hlen : ps.length = cl.length := by rw [hps, List.length_map]
    rw [hlen] at this
    exact this

theorem splitInfo_nonneg (records : List DataRecord) (attr : String)
    (target : TargetField) : 0 ≤ splitInfo records attr target := by
  rw [splitInfo]
  apply List.sum_nonneg
  intro x hx
  obtain ⟨q, hq, rfl⟩ := List.mem_map.mp hx
  have hle : q.2 ≤ records.length := by
    calc q.2 ≤ sumCounts (valueCountsList records attr target) :=
          mem_le_sumCounts _ q hq
      _ ≤ records.length := sumCounts_valueCountsList_le records attr target
  rcases Nat.eq_zero_or_pos records.length with hn | hn
  · have : q.2 = 0 := by omega
    simp [ent2, this]
  · have hnR : (0 : ℝ) < (records.length : ℝ) := by exact_mod_cast hn
    have hp0 : (0 : ℝ) ≤ (q.2 : ℝ) / (records.length : ℝ) := by positivity
    have hp1 : (q.2 : ℝ) / (records.length : ℝ) ≤ 1 := by
      rw [div_le_one hnR]
      exact_mod_cast hle
    have hlog : Real.logb 2 ((q.2 : ℝ) / (records.length : ℝ)) ≤ 0 :=
      Real.logb_nonpos (by norm_num) hp0 hp1
    rw [ent2, neg_nonneg]
    exact mul_nonpos_of_nonneg_of_nonpos hp0 hlog

theorem predictRecChildren_no_match (children : List (String × TreeNode)) (v : String)
    (record : DataRecord) (h : ∀ p ∈ children, p.1 ≠ v) :
    predictRecChildren children v record = none := by
  induction children with
  | nil => rfl
  | cons p rest ih =>
    rw [predictRecChildren]
    rw [if_neg (h p (by simp))]
    exact ih fun q hq => h q (by simp [hq])

theorem predictRecChildren_first_match (pre rest : List (String × TreeNode))
    (v : String) (child : TreeNode) (record : DataRecord)
    (h : ∀ p ∈ pre, p.1 ≠ v) :
    predictRecChildren (pre ++ (v, child) :: rest) v record = predictRec child record := by
  induction pre with
  | nil =>
    rw [List.nil_append, predictRecChildren, if_pos rfl]
  | cons p ps ih =>
    rw [List.cons_append, predictRecChildren, if_neg (h p (by simp))]
    exact ih fun q hq => h q (by simp [hq])

theorem allSameValue_of_all (records : List DataRecord) (target : TargetField)
    (v : String) (hne : records ≠ [])
    (hall : ∀ r ∈ records, getTargetValue r target = some v) :
    allSameValue records target = some v := by
  cases records with
  | nil => exact absurd rfl hne
  | cons first rest =>
    have h1 : getTargetValue first target = some v := hall first (by simp)
    simp only [allSameValue, h1]
    rw [if_pos]
    rw [List.all_eq_true]
    intro r hr
    simp [hall r hr]

theorem buildTree_pure (n : Nat) (records : List DataRecord) (target : TargetField)
    (v : String) (hne : records ≠ [])
    (hall : ∀ r ∈ records, getTargetValue r target = some v) :
    buildTree (n + 1) records target = some (TreeNode.leaf v) := by
  rw [buildTree_succ]
  have hempty : records.isEmpty = false := by
    cases records with
    | nil => exact absurd rfl hne
    | cons a l => rfl
  rw [hempty]
  simp only [Bool.false_eq_true, if_false]
  rw [allSameValue_of_all records target v hne hall]

/-- C2 counterexample: the tree built from the non-empty record set
`branchRecs` is a branch on "county" with no stored majority, and predicting
the all-missing record yields `none`, not a majority fallback value. -/
theorem C2_counterexample :
    buildTree 2 branchRecs TargetField.Clinician =
      some (TreeNode.branch "county"
        [("x", TreeNode.leaf "A"), ("y", TreeNode.leaf "Unknown")]) ∧
    predictRec
      (TreeNode.branch "county" [("x", TreeNode.leaf "A"), ("y", TreeNode.leaf "Unknown")])
      rNone = none := by
  constructor
  · exact buildTree_branchRecs 0
  · decide

/-- C2 amended: `predict_recursive` returns `none` when the branch attribute is
missing on the record or when the record's value matches no child key exactly;
only a leaf produces a value (there is no stored majority and no fallback). -/
theorem C2_amended :
    (∀ (attr : String) (children : List (String × TreeNode)) (record : DataRecord),
      getAttributeValue record attr = none →
      predictRec (TreeNode.branch attr children) record = none) ∧
    (∀ (attr : String) (children : List (String × TreeNode)) (record : DataRecord)
      (v : String),
      getAttributeValue record attr = some v → (∀ p ∈ children, p.1 ≠ v) →
      predictRec (TreeNode.branch attr children) record = none) ∧
    (∀ (v : String) (record : DataRecord),
      predictRec (TreeNode.leaf v) record = some v) := by
  refine ⟨?_, ?_, ?_⟩
  · intro attr children record h
    rw [predictRec, h]
  · intro attr children record v h hall
    rw [predictRec, h]
    exact predictRecChildren_no_match children v record hall
  · intro v record
    rfl

/-- C2 witness: the amended statement applied at concrete inputs. -/
theorem C2_witness :
    predictRec caseTree rNone = none ∧
    predictRec caseTree rYn = none ∧
    predictRec (TreeNode.leaf "Q") rNone = some "Q" := by
  refine ⟨C2_amended.1 "county" _ rNone (by decide), ?_, C2_amended.2.2 "Q" rNone⟩
  refine C2_amended.2.1 "county" _ rYn "y" (by decide) ?_
  intro p hp
  rw [List.mem_singleton] at hp
  subst hp
  decide

/-- C3 counterexample: child lookup during prediction is case-sensitive: the
record whose county differs from the child key "A" only in letter case is not
matched (`none`), while the canonical-case record reaches the child leaf. -/
theorem C3_counterexample :
    rCountyLower.county = some "a" ∧
    rCountyUpper.county = some "A" ∧
    predictRec caseTree rCountyLower = none ∧
    predictRec caseTree rCountyUpper = some "X" ∧
    (none : Option String) ≠ some "X" := by
  refine ⟨by decide, by decide, by decide, by decide, by decide⟩

/-- C3 amended: at a branch the child lookup is an exact, case-sensitive string
match: a record value matching no child key exactly yields `none`, and a value
equal to a child key descends into the first such child. -/
theorem C3_amended :
    (∀ (attr : String) (children : List (String × TreeNode)) (record : DataRecord)
      (v : String),
      getAttributeValue record attr = some v → (∀ p ∈ children, p.1 ≠ v) →
      predictRec (TreeNode.branch attr children) record = none) ∧
    (∀ (attr : String) (pre rest : List (String × TreeNode)) (child : TreeNode)
      (record : DataRecord) (v : String),
      getAttributeValue record attr = some v → (∀ p ∈ pre, p.1 ≠ v) →
      predictRec (TreeNode.branch attr (pre ++ (v, child) :: rest)) record =
        predictRec child record) := by
  constructor
  · intro attr children record v h hall
    rw [predictRec, h]
    exact predictRecChildren_no_match children v record hall
  · intro attr pre rest child record v h hpre
    rw [predictRec, h]
    exact predictRecChildren_first_match pre rest v child record hpre

/-- C3 witness: the amended statement applied at concrete inputs. -/
theorem C3_witness :
    predictRec caseTree rCountyLower = none ∧
    predictRec (TreeNode.branch "county" [("a", TreeNode.leaf "L")]) rCountyLower =
      predictRec (TreeNode.leaf "L") rCountyLower := by
  constructor
  · refine C3_amended.1 "county" _ rCountyLower "a" (by decide) ?_
    intro p hp
    rw [List.mem_singleton] at hp
    subst hp
    decide
  · exact C3_amended.2 "county" [] [] (TreeNode.leaf "L") rCountyLower "a"
      (by decide) (by intro p hp; simp at hp)

/-- C4: over the spec-modelled pruned builder (whose `TreeParams` and
`build_with_params` are invoked from src/main.rs but missing from the included
decision_tree.rs): for every non-empty record set a build with `max_depth = 0`
is a single majority leaf, and in general `depth ≥ max_depth` or
`records.len() < min_samples_leaf` yields the majority leaf without
splitting. -/
theorem C4_depth_pruning (records : List DataRecord) (target : TargetField)
    (attrs : List String) (params : TreeParams) (hne : records ≠ []) :
    (params.max_depth = 0 →
      specBuildTree records target attrs 0 params =
        SpecTreeNode.leaf (specMajority records target)) ∧
    (∀ depth, params.max_depth ≤ depth ∨ records.length < params.min_samples_leaf →
      specBuildTree records target attrs depth params =
        SpecTreeNode.leaf (specMajority records target)) := by
  have main : ∀ depth,
      params.max_depth ≤ depth ∨ records.length < params.min_samples_leaf →
      specBuildTree records target attrs depth params =
        SpecTreeNode.leaf (specMajority records target) := by
    intro depth h
    rw [specBuildTree]
    rw [if_neg hne, dif_pos h]
  exact ⟨fun h0 => main 0 (Or.inl (by omega)), main⟩

/-- C4 witness: with `max_depth = 0` the single record `rXA` builds the
majority leaf "A". -/
theorem C4_witness :
    specBuildTree [rXA] TargetField.Clinician attributeNames 0
      ⟨0, 0, (0 : ℝ)⟩ = SpecTreeNode.leaf "A" := by
  have h := (C4_depth_pruning [rXA] TargetField.Clinician attributeNames
    ⟨0, 0, (0 : ℝ)⟩ (by simp)).1 rfl
  rw [h]
  have hm : specMajority [rXA] TargetField.Clinician = "A" := by decide
  rw [hm]

/-- C5 counterexample: building from the empty record set gives the leaf value
"Unknown" (capital U), not the claimed string "unknown". -/
theorem C5_counterexample :
    buildTree 1 [] TargetField.Clinician = some (TreeNode.leaf "Unknown") ∧
    ("Unknown" : String) ≠ "unknown" := by
  constructor
  · rw [show (1 : Nat) = 0 + 1 from rfl, buildTree_succ]
    rfl
  · decide

/-- C5 amended: for every target field, building from the empty record set
yields `Leaf "Unknown"` (no panic: the builder is total on empty input in the
fuel model for any positive fuel), and a prediction through such a leaf is
present with value "Unknown". -/
theorem C5_amended :
    (∀ (n : Nat) (target : TargetField),
      buildTree (n + 1) [] target = some (TreeNode.leaf "Unknown")) ∧
    (∀ record : DataRecord,
      predictRec (TreeNode.leaf "Unknown") record = some "Unknown") := by
  constructor
  · intro n target
    rw [buildTree_succ]
    rfl
  · intro record
    rfl

/-- C6 counterexample: in `branchRecs` the only non-missing clinician value is
"A" (the second record's target is missing), yet `build_tree` does not return
the single leaf "A": `all_same_value` fails on the missing target and the
result is a branch. -/
theorem C6_counterexample :
    getTargetValue rXA TargetField.Clinician = some "A" ∧
    getTargetValue rYn TargetField.Clinician = none ∧
    buildTree 2 branchRecs TargetField.Clinician =
      some (TreeNode.branch "county"
        [("x", TreeNode.leaf "A"), ("y", TreeNode.leaf "Unknown")]) ∧
    TreeNode.branch "county" [("x", TreeNode.leaf "A"), ("y", TreeNode.leaf "Unknown")] ≠
      TreeNode.leaf "A" := by
  refine ⟨by decide, by decide, buildTree_branchRecs 0, by simp⟩

/-- C6 amended: when every record's target is present and equal to `v` (the
check does not ignore missing targets: a missing target defeats it), the build
is the single leaf `v` and prediction through it returns `v` for every
record. -/
theorem C6_pure_node (n : Nat) (records : List DataRecord) (target : TargetField)
    (v : String) (hne : records ≠ [])
    (hall : ∀ r ∈ records, getTargetValue r target = some v) :
    buildTree (n + 1) records target = some (TreeNode.leaf v) ∧
    ∀ record : DataRecord, predictRec (TreeNode.leaf v) record = some v := by
  exact ⟨buildTree_pure n records target v hne hall, fun _ => rfl⟩

/-- C6 witness: the amended statement applied to the singleton record set. -/
theorem C6_witness :
    buildTree 1 [rXA] TargetField.Clinician = some (TreeNode.leaf "A") := by
  exact (C6_pure_node 0 [rXA] TargetField.Clinician "A" (by simp) (by decide)).1

/-- C7 counterexample: on `loopRecs` splitting on "county" produces exactly one
non-empty partition, yet `split_info` is 1/2 (the denominator counts the
missing-target record) and `gain_ratio` is 1, not 0. -/
theorem C7_counterexample :
    (groupByAttribute loopRecs "county").length = 1 ∧
    gainRatio loopRecs "county" TargetField.Clinician
      (entropy loopRecs TargetField.Clinician) = 1 ∧
    (1 : ℝ) ≠ 0 := by
  refine ⟨by decide, gr_loop_county, by norm_num⟩

/-- C7 amended: `gain_ratio` returns 0 whenever `split_info` equals 0 (the
division guard), and `split_info` is always non-negative; a split with one
non-empty partition can still have positive `split_info` when records with a
missing attribute or target inflate the denominator. -/
theorem C7_split_guard :
    (∀ (records : List DataRecord) (attr : String) (target : TargetField) (e : ℝ),
      splitInfo records attr target = 0 → gainRatio records attr target e = 0) ∧
    (∀ (records : List DataRecord) (attr : String) (target : TargetField),
      0 ≤ splitInfo records attr target) := by
  constructor
  · intro records attr target e h
    rw [gainRatio, if_pos h]
  · exact splitInfo_nonneg

/-- C7 witness: the amended statement applied at concrete inputs. -/
theorem C7_witness :
    gainRatio [] "county" TargetField.Clinician 0 = 0 ∧
    0 ≤ splitInfo loopRecs "county" TargetField.Clinician := by
  constructor
  · exact C7_split_guard.1 [] "county" TargetField.Clinician 0 rfl
  · exact C7_split_guard.2 loopRecs "county" TargetField.Clinician

/-- C8 counterexample: `loopRecs` has exactly one distinct non-missing
clinician value, yet its entropy is 1/2 (the probability denominator counts
the missing-target record), which is neither 0 nor at most
log2(1) = 0. -/
theorem C8_counterexample :
    (countsList loopRecs TargetField.Clinician).length = 1 ∧
    entropy loopRecs TargetField.Clinician = 2⁻¹ ∧
    ¬(entropy loopRecs TargetField.Clinician ≤
        Real.logb 2 (((countsList loopRecs TargetField.Clinician).length : ℕ) : ℝ)) := by
  have hl : (countsList loopRecs TargetField.Clinician).length = 1 := by decide
  refine ⟨hl, entropy_loop, ?_⟩
  rw [entropy_loop, hl]
  rw [Nat.cast_one, Real.logb_one]
  norm_num

/-- C8 amended: entropy of an empty histogram (empty set or zero distinct
classes) is 0; and under the proviso that every record's target is present,
entropy is 0 when there is exactly one distinct class and is at most log2 of
the number of distinct classes. -/
theorem C8_entropy_bounds :
    ∀ (records : List DataRecord) (target : TargetField),
      (countsList records target = [] → entropy records target = 0) ∧
      ((∀ r ∈ records, (getTargetValue r target).isSome) →
        ((countsList records target).length = 1 → entropy records target = 0) ∧
        entropy records target ≤
          Real.logb 2 (((countsList records target).length : ℕ) : ℝ)) := by
  intro records target
  exact ⟨entropy_of_counts_nil records target,
    fun h => ⟨entropy_single records target h, entropy_le_logb records target h⟩⟩

/-- C8 witness: the amended statement applied at concrete inputs. -/
theorem C8_witness :
    entropy [rXA, rXA] TargetField.Clinician = 0 ∧
    entropy [] TargetField.Clinician = 0 := by
  constructor
  · exact ((C8_entropy_bounds [rXA, rXA] TargetField.Clinician).2 (by decide)).1 (by decide)
  · exact (C8_entropy_bounds [] TargetField.Clinician).1 rfl

/-- C9 counterexample: the majority selection is order-dependent on count ties:
the two-record set with clinician values "A" and "B" yields the count
histogram [("A",1),("B",1)], and `max_by_key` (last maximum wins) picks "B"
under one hash-map iteration order and "A" under the other. -/
theorem C9_counterexample :
    countsList [rXA, rB] TargetField.Clinician = [("A", 1), ("B", 1)] ∧
    List.Perm [(("A" : String), 1), ("B", 1)] [("B", 1), ("A", 1)] ∧
    pickMajority [("A", 1), ("B", 1)] = "B" ∧
    pickMajority [("B", 1), ("A", 1)] = "A" ∧
    ("B" : String) ≠ "A" := by
  refine ⟨by decide, by decide, by decide, by decide, by decide⟩

/-- C9 amended: builds are deterministic only up to hash-map iteration order.
When one target value is strictly most frequent, `majority_value` picks it
under every iteration order of the histogram; and gain-ratio ties are broken
by the fixed attribute list: a selected attribute has strictly positive ratio,
every earlier attribute has a strictly smaller ratio and every later one at
most the same ratio. Count ties in `majority_value` remain decided by the
iteration order (see the counterexample). -/
theorem C9_determinism :
    (∀ (l : List (String × Nat)) (v : String) (c : Nat),
      (v, c) ∈ l → (∀ p ∈ l, p.1 ≠ v → p.2 < c) → pickMajority l = v) ∧
    (∀ (records : List DataRecord) (target : TargetField) (a : String),
      selectBestAttribute records target = some a →
      ∃ l₁ l₂, attributeNames = l₁ ++ a :: l₂ ∧
        0 < gainRatio records a target (entropy records target) ∧
        (∀ b ∈ l₁, gainRatio records b target (entropy records target) <
          gainRatio records a target (entropy records target)) ∧
        (∀ b ∈ l₂, gainRatio records b target (entropy records target) ≤
          gainRatio records a target (entropy records target))) := by
  exact ⟨pickMajority_of_strict_max, selectBest_spec⟩

/-- C9 witness: the amended statement applied at concrete inputs. -/
theorem C9_witness :
    pickMajority [("A", 2), ("B", 1)] = "A" ∧
    0 < gainRatio loopRecs "county" TargetField.Clinician
      (entropy loopRecs TargetField.Clinician) := by
  constructor
  · exact C9_determinism.1 [("A", 2), ("B", 1)] "A" 2 (by decide) (by decide)
  · obtain ⟨l₁, l₂, _, hpos, _, _⟩ :=
      C9_determinism.2 loopRecs TargetField.Clinician "county" selectBest_loop
    exact hpos

/-- C10: every group produced by `group_by_attribute` is non-empty (a key is
only ever inserted together with a record pushed under it), so the
`subset.is_empty()` fallback in `build_tree` is unreachable and every child of
a branch is built from a non-empty subset. -/
theorem C10_groups_nonempty :
    ∀ (records : List DataRecord) (attr : String),
      ∀ p ∈ groupByAttribute records attr, p.2 ≠ [] := groupByAttribute_ne_nil

/-- C10 witness: the group of "x" in the singleton record set is non-empty. -/
theorem C10_witness : (("x", [rXA]) : String × List DataRecord).2 ≠ [] :=
  C10_groups_nonempty [rXA] "county" ("x", [rXA]) (by decide)
